import Mathlib

/-!
Verification of the grawler web crawler's robots-policy engine and
crawl-orchestration pipeline against its natural-language specification.

The Go source is embedded shallowly:

* robots package (`CrawlRules`, `RulesIndex.Get`, `fetchCrawlRules`):
  the Go `Set = map[string]bool` becomes a duplicate-free `List String`
  of keys (only key membership is ever used); `time.Duration` (an
  `int64` count of nanoseconds) becomes `Int`, with two's-complement
  wraparound applied exactly where the Go arithmetic can overflow.  The
  HTTP transport is an oracle: a `FetchResult` describes the outcome of
  one `client.Get` of a robots.txt.
* main package (`manager`, `crawl`): the admission loop of `manager`
  becomes a fold over the list of candidate websites, carrying the
  visited set, the rules index, a log of `RulesIndex.Get` calls and the
  list of dispatched fetch workers; the link-batch construction of
  `crawl` takes the external `url.Parse` collaborator as a parameter.
-/

namespace Grawler

/-- Nanoseconds per `time.Second`: Go's `time.Duration` is an `int64`
count of nanoseconds. -/
def nsPerSecond : Int := 1000000000

/-- Model of `CrawlRules` (robots package): a site's robots.txt policy.  The Go
`Set = map[string]bool` fields are modelled by their key lists. -/
structure CrawlRules where
  DisallowedPaths : List String
  AllowedPaths : List String
  Delay : Int
deriving DecidableEq

/-- Key insertion into the `Set` model (`m[path] = true`). -/
def insertPath (s : List String) (p : String) : List String :=
  if p ∈ s then s else p :: s

/-- Model of `newCrawlRules()`: the default rules — empty sets, 1-second delay. -/
def newCrawlRules : CrawlRules :=
  { DisallowedPaths := [], AllowedPaths := [], Delay := nsPerSecond }

/-- Model of the zero `CrawlRules` value (nil sets, zero delay) that
`RulesIndex.Get` returns alongside an error. -/
def zeroCrawlRules : CrawlRules :=
  { DisallowedPaths := [], AllowedPaths := [], Delay := 0 }

/-- Model of `(rules *CrawlRules) Test(path)`: allowed paths win, then
disallowed paths deny, otherwise permit. -/
def CrawlRules.Test (rules : CrawlRules) (path : String) : Bool :=
  if path ∈ rules.AllowedPaths then true
  else !(decide (path ∈ rules.DisallowedPaths))

/-- Model of `strings.ToLower` (the crawler only meets ASCII directives). -/
def toLowerStr (s : String) : String :=
  String.mk (s.data.map Char.toLower)

/-- Model of `strings.TrimSpace`: strip leading and trailing whitespace. -/
def trimStr (s : String) : String :=
  String.mk (((s.data.dropWhile Char.isWhitespace).reverse.dropWhile
    Char.isWhitespace).reverse)

/-- Split a character list at every occurrence of one character;
`strings.Split` for a one-character separator (an empty input gives one
empty field). -/
def splitChar (c : Char) : List Char → List (List Char)
  | [] => [[]]
  | x :: xs =>
    match splitChar c xs with
    | [] => [[]]
    | y :: ys => if x = c then [] :: y :: ys else (x :: y) :: ys

/-- Model of `strings.Split(s, "\n")`. -/
def splitLines (s : String) : List String :=
  (splitChar '\n' s.data).map String.mk

/-- Break a character list at the first occurrence of `": "`. -/
def splitTwo : List Char → Option (List Char × List Char)
  | [] => none
  | ':' :: ' ' :: rest => some ([], rest)
  | x :: xs =>
    match splitTwo xs with
    | none => none
    | some p => some (x :: p.1, p.2)

/-- Model of `strings.SplitN(line, ": ", 2)`: the text before the first `": "`
and everything after it, or `none` when the separator is absent. -/
def splitOnce (line : String) : Option (String × String) :=
  (splitTwo line.data).map (fun p => (String.mk p.1, String.mk p.2))

/-- Value of a list of decimal digits. -/
def digitsToNat (ds : List Char) : Nat :=
  ds.foldl (fun acc c => acc * 10 + (c.toNat - '0'.toNat)) 0

/-- Model of `strconv.Atoi`: an optional sign followed by one or more decimal
digits, with the value inside the `int64` range; anything else is an
error (`none`). -/
def atoi (s : String) : Option Int :=
  let p : Int × List Char :=
    match s.data with
    | '+' :: rest => (1, rest)
    | '-' :: rest => (-1, rest)
    | l => (1, l)
  if p.2 = [] then none
  else if p.2.all Char.isDigit then
    let v : Int := p.1 * (digitsToNat p.2 : Int)
    if -(2 ^ 63) ≤ v ∧ v < 2 ^ 63 then some v else none
  else none

/-- Round an integer to the nearest `float64` value (round half to
even); the identity below `2^53`.  Models Go's `float64(count)`
conversion inside the crawl-delay computation. -/
def roundF64 (x : Int) : Int :=
  if x.natAbs < 2 ^ 53 then x
  else
    let a := x.natAbs
    let e := a.log2 - 52
    let q := a / 2 ^ e
    let r := a % 2 ^ e
    let half := 2 ^ (e - 1)
    let q' := if half < r then q + 1 else if r < half then q
      else if q % 2 = 0 then q else q + 1
    (if x < 0 then (-1 : Int) else 1) * ((q' * 2 ^ e : Nat) : Int)

/-- Two's-complement wraparound of `int64` arithmetic. -/
def wrap64 (x : Int) : Int :=
  (x + 2 ^ 63) % 2 ^ 64 - 2 ^ 63

/-- Parser state inside the loop of `fetchCrawlRules`: the rules built
so far and the `respectRules` flag. -/
structure ParseState where
  rules : CrawlRules
  respectRules : Bool
deriving DecidableEq

/-- One directive of the robots.txt loop in `fetchCrawlRules`, after
the line has been split at `": "` and the key case-folded.  The
crawl-delay assignment models
`time.Duration(int64(math.Min(30.0, float64(count)))) * time.Second`
as the int64-wrapped product of `min 30 (roundF64 count)` and 10^9. -/
def processDirective (st : ParseState) (directive value : String) : ParseState :=
  if directive = "user-agent" ∧ (value = "*" ∨ toLowerStr value = "grawler") then
    { st with respectRules := true }
  else
    let st := if directive = "user-agent" then { st with respectRules := false } else st
    if !st.respectRules then st
    else if directive = "allow" then
      { st with rules := { st.rules with
          AllowedPaths := insertPath st.rules.AllowedPaths (trimStr value) } }
    else if directive = "disallow" then
      { st with rules := { st.rules with
          DisallowedPaths := insertPath st.rules.DisallowedPaths (trimStr value) } }
    else if directive = "crawl-delay" then
      match atoi value with
      | none => st
      | some n =>
        { st with rules := { st.rules with
            Delay := wrap64 (min 30 (roundF64 n) * nsPerSecond) } }
    else st

/-- One line of the robots.txt loop in `fetchCrawlRules`: skip empty
lines and lines whose first character is `#`, skip lines without the
separator, otherwise handle the directive with its key case-folded. -/
def processLine (st : ParseState) (line : String) : ParseState :=
  match line.data with
  | [] => st
  | c :: _ =>
    if c = '#' then st
    else
      match splitOnce line with
      | none => st
      | some kv => processDirective st (toLowerStr kv.1) kv.2

/-- The robots.txt body handling of `fetchCrawlRules`: fold the line
loop over `strings.Split(body, "\n")`, starting from the default rules
with `respectRules = false`. -/
def parseRobotsBody (body : String) : CrawlRules :=
  ((splitLines body).foldl processLine
    { rules := newCrawlRules, respectRules := false }).rules

/-- Outcome of one robots.txt HTTP GET as seen by `fetchCrawlRules`:
either a transport error, or a response with a status code and a body
(`none` when reading the body fails). -/
inductive FetchResult where
  | transportErr : FetchResult
  | resp : Int → Option String → FetchResult
deriving DecidableEq

/-- Model of `fetchCrawlRules` (robots package): the rules and the error flag
returned for a given transport outcome.  A status outside [200, 399]
yields the default rules with no error. -/
def fetchCrawlRules : FetchResult → CrawlRules × Bool
  | .transportErr => (newCrawlRules, true)
  | .resp status body =>
    if 399 < status ∨ status < 200 then (newCrawlRules, false)
    else
      match body with
      | none => (newCrawlRules, true)
      | some b => (parseRobotsBody b, false)

/-- Lookup in the `RulesIndex` cache; a Go map write shadows older
entries, so the newest entry comes first. -/
def lookupRules : List (String × CrawlRules) → String → Option CrawlRules
  | [], _ => none
  | (k, r) :: rest, h => if k = h then some r else lookupRules rest h

/-- Result of a `RulesIndex.Get` call: the returned rules, the error
flag, the index afterwards, and whether a robots.txt fetch was
issued. -/
structure GetResult where
  rules : CrawlRules
  isErr : Bool
  index : List (String × CrawlRules)
  fetched : Bool
deriving DecidableEq

/-- Model of `RulesIndex.Get`: return the cached rules if present; otherwise
fetch, cache on success, and return `CrawlRules{}` with the error on
failure (nothing is cached in that case). -/
def getRules (oracle : String → FetchResult) (idx : List (String × CrawlRules))
    (hostname : String) : GetResult :=
  match lookupRules idx hostname with
  | some r => { rules := r, isErr := false, index := idx, fetched := false }
  | none =>
    let fr := fetchCrawlRules (oracle hostname)
    if fr.2 then { rules := zeroCrawlRules, isErr := true, index := idx, fetched := true }
    else { rules := fr.1, isErr := false, index := (hostname, fr.1) :: idx, fetched := true }

/-- The scheme/host/path fragment of Go's `url.URL` that the crawler
reads and writes. -/
structure URLParts where
  scheme : String
  host : String
  path : String
deriving DecidableEq

/-- Model of `url.URL.Hostname()` on `host[:port]` forms: the text before the
first colon (the IPv6 bracket case is not exercised by the crawler's
claims). -/
def hostnameOf (host : String) : String :=
  String.mk (host.data.takeWhile (fun c => c ≠ ':'))

/-- Model of `url.URL.String()` restricted to scheme/host/path URLs. -/
def urlString (u : URLParts) : String :=
  (if u.scheme = "" then "" else u.scheme ++ ":") ++
    (if u.host = "" then "" else "//" ++ u.host) ++ u.path

/-- The `website` struct of the main package: a URL and its referrer. -/
structure Website where
  referrer : URLParts
  url : URLParts
deriving DecidableEq

/-- The zero `website` value. -/
def zeroWebsite : Website :=
  { referrer := { scheme := "", host := "", path := "" },
    url := { scheme := "", host := "", path := "" } }

/-- State threaded through the admission loop of `manager`: the visited
set, the rules index, the hostnames passed to `RulesIndex.Get` (in call
order) and the fetch workers dispatched so far (in order). -/
structure ManagerState where
  visited : List String
  index : List (String × CrawlRules)
  getCalls : List String
  dispatched : List Website
deriving DecidableEq

/-- The initial state of `manager`: everything empty. -/
def emptyManagerState : ManagerState :=
  { visited := [], index := [], getCalls := [], dispatched := [] }

/-- The body of the admission loop in `manager` for one candidate:
skip URLs whose string form is already visited, record the URL as
visited, call `RulesIndex.Get` on the hostname, drop the URL on a rules
error, drop it when `Test` denies the path, and otherwise dispatch a
crawl worker. -/
def managerStep (oracle : String → FetchResult) (st : ManagerState)
    (toVet : Website) : ManagerState :=
  let fullURL := urlString toVet.url
  if fullURL ∈ st.visited then st
  else
    let hn := hostnameOf toVet.url.host
    let res := getRules oracle st.index hn
    let st' : ManagerState :=
      { st with visited := fullURL :: st.visited, index := res.index,
                getCalls := st.getCalls ++ [hn] }
    if res.isErr then st'
    else if res.rules.Test toVet.url.path = false then st'
    else { st' with dispatched := st'.dispatched ++ [toVet] }

/-- The admission loop of `manager` over a list of candidates. -/
def managerRun (oracle : String → FetchResult) (st : ManagerState)
    (cs : List Website) : ManagerState :=
  cs.foldl (managerStep oracle) st

/-- Link normalization in `crawl`: a parsed link with an empty hostname
gets the crawled page's hostname as host, and an empty scheme defaults
to http. -/
def normalizeParsed (toCrawl : Website) (u : URLParts) : URLParts :=
  let u1 := if hostnameOf u.host = "" then { u with host := hostnameOf toCrawl.url.host } else u
  if u1.scheme = "" then { u1 with scheme := "http" } else u1

/-- The batch `urlsToVet` that `crawl` submits to the vetting queue:
`make([]website, len(allLinks))` pre-fills the slice with zero values,
and each link that parses is normalized and appended after them (a link
that fails to parse is skipped).  `parseLink` is the external
`url.Parse` collaborator. -/
def crawlBatch (parseLink : String → Option URLParts) (toCrawl : Website)
    (allLinks : List String) : List Website :=
  allLinks.foldl
    (fun acc link =>
      match parseLink link with
      | none => acc
      | some parsed =>
        acc ++ [{ referrer := toCrawl.url, url := normalizeParsed toCrawl parsed }])
    (List.replicate allLinks.length zeroWebsite)

/-- A concrete instance of the `url.Parse` collaborator for the worked
examples: it parses the root-relative link used by the specification
(`url.Parse "/foo"` yields an URL with empty scheme and host). -/
def demoLinkParse : String → Option URLParts :=
  fun link =>
    if link = "/foo" then some { scheme := "", host := "", path := "/foo" } else none

/-- A robots.txt line is delay-safe when any integer crawl-delay value
it carries is at least -9223372036, so that the nanosecond product in
the delay computation stays inside the `int64` range. -/
def delayLineSafe (line : String) : Bool :=
  match splitOnce line with
  | none => true
  | some kv =>
    if toLowerStr kv.1 = "crawl-delay" then
      match atoi kv.2 with
      | none => true
      | some n => decide (-9223372036 ≤ n)
    else true

/-! ### Supporting lemmas -/

/-- The `float64` conversion is exact below `2^53`. -/
theorem roundF64_eq_self (x : Int) (h : x.natAbs < 2 ^ 53) : roundF64 x = x := by
  unfold roundF64
  rw [if_pos h]

/-- Rounding a nonnegative integer to `float64` stays nonnegative. -/
theorem roundF64_nonneg (x : Int) (h : 0 ≤ x) : 0 ≤ roundF64 x := by
  unfold roundF64
  split
  · exact h
  · rw [if_neg (by omega)]
    positivity

/-- Rounding an integer at least `2^53` to `float64` gives at least 30
(so the crawl-delay cap still picks 30). -/
theorem roundF64_ge_thirty (x : Int) (h : (2 : Int) ^ 53 ≤ x) : 30 ≤ roundF64 x := by
  have hx : 0 < x := lt_of_lt_of_le (by positivity) h
  have habs : 2 ^ 53 ≤ x.natAbs := by
    have := Int.natAbs_of_nonneg hx.le
    omega
  unfold roundF64
  rw [if_neg (by omega), if_neg (by omega)]
  have hne : x.natAbs ≠ 0 := by omega
  have hlog : 53 ≤ x.natAbs.log2 := (Nat.le_log2 hne).mpr habs
  have hq : 2 ^ 52 ≤ x.natAbs / 2 ^ (x.natAbs.log2 - 52) := by
    calc 2 ^ 52 = 2 ^ x.natAbs.log2 / 2 ^ (x.natAbs.log2 - 52) := by
          rw [Nat.pow_div (by omega) (by omega)]
          congr 1
          omega
      _ ≤ x.natAbs / 2 ^ (x.natAbs.log2 - 52) :=
          Nat.div_le_div_right (Nat.log2_self_le hne)
  have hone : 1 ≤ 2 ^ (x.natAbs.log2 - 52) := Nat.one_le_two_pow
  have hgoal : ∀ q' : Nat, x.natAbs / 2 ^ (x.natAbs.log2 - 52) ≤ q' →
      (30 : Int) ≤ 1 * ((q' * 2 ^ (x.natAbs.log2 - 52) : Nat) : Int) := by
    intro q' hq'
    have h30 : (30 : Nat) ≤ q' * 2 ^ (x.natAbs.log2 - 52) := by
      calc (30 : Nat) ≤ 2 ^ 52 := by norm_num
        _ ≤ q' := le_trans hq hq'
        _ ≤ q' * 2 ^ (x.natAbs.log2 - 52) := Nat.le_mul_of_pos_right _ (by omega)
    rw [one_mul]
    exact_mod_cast h30
  dsimp only
  split
  · exact hgoal _ (by omega)
  · split
    · exact hgoal _ le_rfl
    · split
      · exact hgoal _ le_rfl
      · exact hgoal _ (by omega)

/-- The map `wrap64` is the identity inside the `int64` range. -/
theorem wrap64_eq_self (x : Int) (h1 : -9223372036854775808 ≤ x)
    (h2 : x < 9223372036854775808) : wrap64 x = x := by
  unfold wrap64
  omega

/-- The default rules permit every path. -/
theorem newCrawlRules_test (p : String) : newCrawlRules.Test p = true := by
  simp [newCrawlRules, CrawlRules.Test]

/-! ### Claim theorems -/

/-- C1: for every rule set and path, `Test` returns true when the path
is in `AllowedPaths`, otherwise false when it is in `DisallowedPaths`,
otherwise true (default permit); and a path in `AllowedPaths` always
tests true, regardless of `DisallowedPaths` membership. -/
theorem test_allow_overrides_disallow (rules : CrawlRules) (path : String) :
    rules.Test path =
      (if path ∈ rules.AllowedPaths then true
       else if path ∈ rules.DisallowedPaths then false else true) ∧
    (path ∈ rules.AllowedPaths → rules.Test path = true) := by
  refine ⟨?_, fun h => by simp [CrawlRules.Test, h]⟩
  by_cases ha : path ∈ rules.AllowedPaths
  · simp [CrawlRules.Test, ha]
  · by_cases hd : path ∈ rules.DisallowedPaths <;> simp [CrawlRules.Test, ha, hd]

/-- Witness for C1: a path present in both sets tests true. -/
theorem test_allow_overrides_disallow_witness :
    CrawlRules.Test { DisallowedPaths := ["/a"], AllowedPaths := ["/a"], Delay := 0 } "/a" = true :=
  (test_allow_overrides_disallow
    { DisallowedPaths := ["/a"], AllowedPaths := ["/a"], Delay := 0 } "/a").2 (by decide)

/-- C3: evaluating the link-batch construction of `crawl` for the page
http://example.com/bar whose body yields the single link "/foo": the
link normalizes to http://example.com/foo exactly as claimed, but the
submitted batch is not only the normalized links — because `urlsToVet`
is created with `make([]website, len(allLinks))` and then appended to,
one zero-value website per extracted link precedes them. -/
theorem crawl_batch_zero_padding :
    crawlBatch demoLinkParse
        { referrer := { scheme := "", host := "", path := "" },
          url := { scheme := "http", host := "example.com", path := "/bar" } }
        ["/foo"] =
      [zeroWebsite,
       { referrer := { scheme := "http", host := "example.com", path := "/bar" },
         url := { scheme := "http", host := "example.com", path := "/foo" } }] ∧
    crawlBatch demoLinkParse
        { referrer := { scheme := "", host := "", path := "" },
          url := { scheme := "http", host := "example.com", path := "/bar" } }
        ["/foo"] ≠
      [{ referrer := { scheme := "http", host := "example.com", path := "/bar" },
         url := { scheme := "http", host := "example.com", path := "/foo" } }] := by
  decide

/-- C6: `fetchCrawlRules` turns a status outside [200, 399] into the
default rules with no error, and `RulesIndex.Get` then caches and
returns exactly those default rules instead of propagating an error. -/
theorem bad_status_yields_default_rules (status : Int) (body : Option String)
    (hs : 399 < status ∨ status < 200) :
    fetchCrawlRules (.resp status body) = (newCrawlRules, false) ∧
    ∀ (oracle : String → FetchResult) (idx : List (String × CrawlRules)) (h : String),
      lookupRules idx h = none → oracle h = .resp status body →
      getRules oracle idx h =
        { rules := newCrawlRules, isErr := false,
          index := (h, newCrawlRules) :: idx, fetched := true } := by
  have h1 : fetchCrawlRules (.resp status body) = (newCrawlRules, false) := by
    simp only [fetchCrawlRules, if_pos hs]
  exact ⟨h1, fun oracle idx h hl ho => by simp [getRules, hl, ho, h1]⟩

/-- Witness for C6: a 404 robots.txt response caches the default
permissive rules with no error. -/
theorem bad_status_yields_default_rules_witness :
    getRules (fun _ => .resp 404 none) [] "a.test" =
      { rules := newCrawlRules, isErr := false,
        index := [("a.test", newCrawlRules)], fetched := true } :=
  (bad_status_yields_default_rules 404 none (by decide)).2
    (fun _ => .resp 404 none) [] "a.test" rfl rfl

/-- C7: when the robots fetch fails at transport level, `Get` returns
an error and leaves the index unchanged, so a later `Get` for the same
hostname issues the fetch again; when the fetch succeeds, the rules are
cached and a later `Get` returns the cached rules without fetching. -/
theorem get_transport_error_no_cache (oracle oracle2 : String → FetchResult)
    (idx : List (String × CrawlRules)) (h : String)
    (hl : lookupRules idx h = none) :
    (oracle h = .transportErr →
      getRules oracle idx h =
        { rules := zeroCrawlRules, isErr := true, index := idx, fetched := true } ∧
      (getRules oracle2 (getRules oracle idx h).index h).fetched = true) ∧
    (∀ r : CrawlRules, fetchCrawlRules (oracle h) = (r, false) →
      getRules oracle idx h =
        { rules := r, isErr := false, index := (h, r) :: idx, fetched := true } ∧
      getRules oracle2 ((h, r) :: idx) h =
        { rules := r, isErr := false, index := (h, r) :: idx, fetched := false }) := by
  constructor
  · intro ho
    have herr : getRules oracle idx h =
        { rules := zeroCrawlRules, isErr := true, index := idx, fetched := true } := by
      simp [getRules, hl, ho, fetchCrawlRules]
    refine ⟨herr, ?_⟩
    rw [herr]
    simp only [getRules, hl]
    split <;> rfl
  · intro r hr
    refine ⟨by simp [getRules, hl, hr], ?_⟩
    simp [getRules, lookupRules]

/-- Witness for C7: a transport failure for a fresh hostname returns an
error, caches nothing, and the retry fetches again. -/
theorem get_transport_error_no_cache_witness :
    getRules (fun _ => .transportErr) [] "a.test" =
      { rules := zeroCrawlRules, isErr := true, index := [], fetched := true } ∧
    (getRules (fun _ => .transportErr)
      (getRules (fun _ => .transportErr) [] "a.test").index "a.test").fetched = true :=
  (get_transport_error_no_cache (fun _ => .transportErr) (fun _ => .transportErr)
    [] "a.test" rfl).1 rfl

/-- C10: on a transport error `Get` returns the zero `CrawlRules` value
(empty sets, zero delay) alongside the error; that value differs from
the default rules (1-second delay), and `Test` on it still permits
every path. -/
theorem get_error_returns_zero_value (oracle : String → FetchResult)
    (idx : List (String × CrawlRules)) (h : String)
    (hl : lookupRules idx h = none) (ho : oracle h = .transportErr) :
    (getRules oracle idx h).rules = zeroCrawlRules ∧
    (getRules oracle idx h).isErr = true ∧
    zeroCrawlRules ≠ newCrawlRules ∧
    ∀ p, zeroCrawlRules.Test p = true := by
  have hres : getRules oracle idx h =
      { rules := zeroCrawlRules, isErr := true, index := idx, fetched := true } := by
    simp [getRules, hl, ho, fetchCrawlRules]
  exact ⟨by rw [hres], by rw [hres], by decide,
    fun p => by simp [zeroCrawlRules, CrawlRules.Test]⟩

/-- Witness for C10: the concrete error return for a fresh hostname. -/
theorem get_error_returns_zero_value_witness :
    (getRules (fun _ => .transportErr) [] "a.test").rules = zeroCrawlRules ∧
    (getRules (fun _ => .transportErr) [] "a.test").isErr = true ∧
    zeroCrawlRules ≠ newCrawlRules ∧
    ∀ p, zeroCrawlRules.Test p = true :=
  get_error_returns_zero_value (fun _ => .transportErr) [] "a.test" rfl rfl

/-- Flattened form of `processDirective`: clearing the flag on a
non-matching `user-agent` line makes the subsequent flag guard skip the
switch, so the two returns collapse. -/
theorem processDirective_eq (st : ParseState) (d v : String) :
    processDirective st d v =
      if d = "user-agent" ∧ (v = "*" ∨ toLowerStr v = "grawler") then
        { st with respectRules := true }
      else if d = "user-agent" then { st with respectRules := false }
      else if !st.respectRules then st
      else if d = "allow" then
        { st with rules := { st.rules with
            AllowedPaths := insertPath st.rules.AllowedPaths (trimStr v) } }
      else if d = "disallow" then
        { st with rules := { st.rules with
            DisallowedPaths := insertPath st.rules.DisallowedPaths (trimStr v) } }
      else if d = "crawl-delay" then
        match atoi v with
        | none => st
        | some n =>
          { st with rules := { st.rules with
              Delay := wrap64 (min 30 (roundF64 n) * nsPerSecond) } }
      else st := by
  unfold processDirective
  by_cases h1 : d = "user-agent" ∧ (v = "*" ∨ toLowerStr v = "grawler")
  · simp only [if_pos h1]
  · rw [if_neg h1, if_neg h1]
    by_cases h2 : d = "user-agent"
    · simp [h2]
    · simp [h2]

/-- While `respectRules` is off, no directive changes the rules (the
flag itself may change). -/
theorem processDirective_rules_of_flag_off (st : ParseState) (d v : String)
    (h : st.respectRules = false) : (processDirective st d v).rules = st.rules := by
  rw [processDirective_eq]
  split
  · rfl
  · split
    · rfl
    · rw [if_pos (by simp [h])]

/-- C8: a directive on any line has no effect on the rules while the
rules-apply flag is false (covering directives before any `user-agent`
line and inside non-matching blocks); in particular a body whose only
block is for `other-bot` yields exactly the default rules, and its
`disallow: /x` leaves `/x` permitted. -/
theorem nonmatching_agent_block_no_effect :
    (∀ (st : ParseState) (line : String), st.respectRules = false →
      (processLine st line).rules = st.rules) ∧
    parseRobotsBody "user-agent: other-bot\ndisallow: /x" = newCrawlRules ∧
    (parseRobotsBody "user-agent: other-bot\ndisallow: /x").Test "/x" = true := by
  refine ⟨?_, by decide, by decide⟩
  intro st line h
  unfold processLine
  split
  · rfl
  · split
    · rfl
    · split
      · rfl
      · exact processDirective_rules_of_flag_off st _ _ h

/-- Witness for C8: one disallow line processed with the flag off
leaves the default rules unchanged. -/
theorem nonmatching_agent_block_no_effect_witness :
    (processLine { rules := newCrawlRules, respectRules := false }
      "disallow: /x").rules = newCrawlRules :=
  nonmatching_agent_block_no_effect.1
    { rules := newCrawlRules, respectRules := false } "disallow: /x" rfl

/-- C4 as stated fails on the code: `crawl-delay: -5` produces a
negative delay, and `crawl-delay: -10000000000` overflows the `int64`
nanosecond product into a delay far above 30 seconds. -/
theorem parse_delay_invariant_fails :
    (parseRobotsBody "user-agent: *\ncrawl-delay: -5").Delay = -5 * nsPerSecond ∧
    (parseRobotsBody "user-agent: *\ncrawl-delay: -5").Delay < 0 ∧
    (parseRobotsBody "user-agent: *\ncrawl-delay: -10000000000").Delay =
      8446744073709551616 ∧
    30 * nsPerSecond < (parseRobotsBody "user-agent: *\ncrawl-delay: -10000000000").Delay := by
  decide

/-- A single parse step keeps the delay at or below the 30-second cap
when the line's crawl-delay value (if any) avoids int64 overflow. -/
theorem processDirective_delay_le (st : ParseState) (d v : String)
    (hst : st.rules.Delay ≤ 30 * nsPerSecond)
    (hsafe : d = "crawl-delay" → ∀ n : Int, atoi v = some n → -9223372036 ≤ n) :
    (processDirective st d v).rules.Delay ≤ 30 * nsPerSecond := by
  rw [processDirective_eq]
  split
  · exact hst
  split
  · exact hst
  split
  · exact hst
  split
  · exact hst
  split
  · exact hst
  split
  · rename_i hd
    split
    · exact hst
    next n hn =>
      have hbound := hsafe hd n hn
      have hm30 : min 30 (roundF64 n) ≤ 30 := min_le_left _ _
      have hmlo : -9223372036 ≤ min 30 (roundF64 n) := by
        rcases le_or_lt 0 n with h0 | h0
        · have hr := roundF64_nonneg n h0
          omega
        · have habs : n.natAbs < 2 ^ 53 := by omega
          rw [roundF64_eq_self n habs]
          omega
      have hw : wrap64 (min 30 (roundF64 n) * nsPerSecond) =
          min 30 (roundF64 n) * nsPerSecond := by
        apply wrap64_eq_self <;> simp only [nsPerSecond] <;> omega
      simp only [nsPerSecond] at hw ⊢
      rw [hw]
      omega
  · exact hst

/-- Line-level version of the delay cap: a delay-safe line keeps the
delay at or below 30 seconds. -/
theorem processLine_delay_le (st : ParseState) (line : String)
    (hst : st.rules.Delay ≤ 30 * nsPerSecond)
    (hline : delayLineSafe line = true) :
    (processLine st line).rules.Delay ≤ 30 * nsPerSecond := by
  unfold processLine
  split
  · exact hst
  · split
    · exact hst
    · split
      · exact hst
      next kv hsplit =>
        apply processDirective_delay_le st _ _ hst
        intro hd n hn
        unfold delayLineSafe at hline
        rw [hsplit] at hline
        simp [hd, hn] at hline
        exact hline

/-- C4 amended: the parsed delay never exceeds 30 seconds provided
every integer crawl-delay value in the body is at least -9223372036
(the threshold below which the int64 nanosecond product wraps); the
delay may still be negative. -/
theorem parse_delay_never_exceeds_cap (body : String)
    (hsafe : ∀ line ∈ splitLines body, delayLineSafe line = true) :
    (parseRobotsBody body).Delay ≤ 30 * nsPerSecond := by
  unfold parseRobotsBody
  have main : ∀ (ls : List String) (st : ParseState),
      (∀ l ∈ ls, delayLineSafe l = true) →
      st.rules.Delay ≤ 30 * nsPerSecond →
      (ls.foldl processLine st).rules.Delay ≤ 30 * nsPerSecond := by
    intro ls
    induction ls with
    | nil => exact fun st _ h => h
    | cons l ls ih =>
      intro st hl h
      exact ih _ (fun x hx => hl x (List.mem_cons_of_mem _ hx))
        (processLine_delay_le st l h (hl l (List.mem_cons_self _ _)))
  exact main _ _ hsafe (by norm_num [newCrawlRules, nsPerSecond])

/-- Witness for the amended C4: a capped body stays at the 30-second
bound. -/
theorem parse_delay_never_exceeds_cap_witness :
    (parseRobotsBody "user-agent: *\ncrawl-delay: 120").Delay ≤ 30 * nsPerSecond :=
  parse_delay_never_exceeds_cap "user-agent: *\ncrawl-delay: 120" (by decide)

/-- C5 as stated fails on the code: for `crawl-delay: -10000000000`
(which parses as an integer) the stored delay is not min(30, n)
seconds — the int64 nanosecond product wraps around to a huge positive
duration. -/
theorem crawl_delay_min_formula_fails :
    (parseRobotsBody "user-agent: *\ncrawl-delay: -10000000000").Delay ≠
      min 30 (-10000000000) * nsPerSecond ∧
    (parseRobotsBody "user-agent: *\ncrawl-delay: -10000000000").Delay =
      8446744073709551616 := by
  decide

/-- C5 amended: while the flag is on, `crawl-delay` with an integer
value n stores the int64-wrapped product of min(30, float64(n)) with
10^9 nanoseconds — equal to min(30, n) seconds whenever
n ≥ -9223372036 — and a non-integer value leaves the state unchanged;
`user-agent: *` then `crawl-delay: 120` yields a 30-second delay, and
`crawl-delay: abc` leaves the prior delay in place. -/
theorem crawl_delay_directive_spec (st : ParseState) (v : String) :
    (∀ n : Int, st.respectRules = true → atoi v = some n →
      processDirective st "crawl-delay" v =
        { st with rules := { st.rules with
            Delay := wrap64 (min 30 (roundF64 n) * nsPerSecond) } }) ∧
    (∀ n : Int, st.respectRules = true → atoi v = some n → -9223372036 ≤ n →
      (processDirective st "crawl-delay" v).rules.Delay = min 30 n * nsPerSecond) ∧
    (st.respectRules = true → atoi v = none →
      processDirective st "crawl-delay" v = st) ∧
    (parseRobotsBody "user-agent: *\ncrawl-delay: 120").Delay = 30 * nsPerSecond ∧
    (parseRobotsBody "user-agent: *\ncrawl-delay: 7\ncrawl-delay: abc").Delay =
      7 * nsPerSecond := by
  have hgen : ∀ n : Int, st.respectRules = true → atoi v = some n →
      processDirective st "crawl-delay" v =
        { st with rules := { st.rules with
            Delay := wrap64 (min 30 (roundF64 n) * nsPerSecond) } } := by
    intro n hf hn
    rw [processDirective_eq]
    rw [if_neg (by simp), if_neg (by simp), if_neg (by simp [hf]),
      if_neg (by simp), if_neg (by simp), if_pos rfl, hn]
  refine ⟨hgen, ?_, ?_, by decide, by decide⟩
  · intro n hf hn hb
    rw [hgen n hf hn]
    show wrap64 (min 30 (roundF64 n) * nsPerSecond) = min 30 n * nsPerSecond
    rcases lt_or_le n (2 ^ 53) with h53 | h53
    · have habs : n.natAbs < 2 ^ 53 := by omega
      rw [roundF64_eq_self n habs]
      apply wrap64_eq_self <;> simp only [nsPerSecond] <;> omega
    · have h30 := roundF64_ge_thirty n h53
      rw [min_eq_left h30, min_eq_left (by omega : (30 : Int) ≤ n)]
      apply wrap64_eq_self <;> simp only [nsPerSecond] <;> omega
  · intro hf hn
    rw [processDirective_eq]
    rw [if_neg (by simp), if_neg (by simp), if_neg (by simp [hf]),
      if_neg (by simp), if_neg (by simp), if_pos rfl, hn]

/-- Witness for the amended C5: a concrete directive step with the flag
on stores exactly min(30, 120) = 30 seconds. -/
theorem crawl_delay_directive_spec_witness :
    (processDirective { rules := newCrawlRules, respectRules := true }
      "crawl-delay" "120").rules.Delay = min 30 120 * nsPerSecond :=
  (crawl_delay_directive_spec
    { rules := newCrawlRules, respectRules := true } "120").2.1 120 rfl (by decide)
    (by decide)

/-- One admission step preserves the dedup invariant: the dispatched
URL strings are duplicate-free and all recorded as visited. -/
theorem managerStep_dedup_inv (oracle : String → FetchResult) (st : ManagerState)
    (w : Website)
    (h1 : (st.dispatched.map (fun v => urlString v.url)).Nodup)
    (h2 : ∀ v ∈ st.dispatched, urlString v.url ∈ st.visited) :
    ((managerStep oracle st w).dispatched.map (fun v => urlString v.url)).Nodup ∧
    ∀ v ∈ (managerStep oracle st w).dispatched,
      urlString v.url ∈ (managerStep oracle st w).visited := by
  unfold managerStep
  dsimp only
  split
  · exact ⟨h1, h2⟩
  next hmem =>
    split
    · exact ⟨h1, fun v hv => List.mem_cons_of_mem _ (h2 v hv)⟩
    · split
      · exact ⟨h1, fun v hv => List.mem_cons_of_mem _ (h2 v hv)⟩
      · constructor
        · rw [List.map_append]
          refine List.Nodup.append h1 (by simp) ?_
          intro a ha hb
          simp only [List.map_cons, List.map_nil, List.mem_singleton] at hb
          rcases List.mem_map.mp ha with ⟨v, hv, rfl⟩
          exact hmem (hb ▸ h2 v hv)
        · intro v hv
          rcases List.mem_append.mp hv with hv | hv
          · exact List.mem_cons_of_mem _ (h2 v hv)
          · simp only [List.mem_singleton] at hv
            subst hv
            exact List.mem_cons_self _ _

/-- The admission loop keeps the dispatched URL strings
duplicate-free. -/
theorem managerRun_dedup (oracle : String → FetchResult) (cs : List Website) :
    ∀ st : ManagerState,
      (st.dispatched.map (fun v => urlString v.url)).Nodup →
      (∀ v ∈ st.dispatched, urlString v.url ∈ st.visited) →
      ((managerRun oracle st cs).dispatched.map (fun v => urlString v.url)).Nodup := by
  induction cs with
  | nil => exact fun st h1 _ => h1
  | cons c cs ih =>
    intro st h1 h2
    have h := managerStep_dedup_inv oracle st c h1 h2
    exact ih _ h.1 h.2

/-- C2: a candidate whose URL string is already visited is skipped
untouched; across a whole run from the empty state, each URL string is
dispatched at most once; and submitting the same URL twice with a
permissive transport yields exactly one dispatch. -/
theorem manager_dispatches_once :
    (∀ (oracle : String → FetchResult) (st : ManagerState) (w : Website),
      urlString w.url ∈ st.visited → managerStep oracle st w = st) ∧
    (∀ (oracle : String → FetchResult) (cs : List Website) (u : String),
      ((managerRun oracle emptyManagerState cs).dispatched.map
        (fun v => urlString v.url)).count u ≤ 1) ∧
    (∀ w : Website,
      (managerRun (fun _ => .resp 200 (some "")) emptyManagerState [w, w]).dispatched
        = [w]) := by
  refine ⟨fun oracle st w h => ?_, fun oracle cs u => ?_, fun w => ?_⟩
  · unfold managerStep
    rw [if_pos h]
  · exact List.nodup_iff_count_le_one.mp
      (managerRun_dedup oracle cs emptyManagerState (by simp [emptyManagerState])
        (by simp [emptyManagerState])) u
  · have hfetch : fetchCrawlRules (.resp 200 (some "")) = (newCrawlRules, false) := by
      have hparse : parseRobotsBody "" = newCrawlRules := by decide
      simp [fetchCrawlRules, hparse]
    simp [managerRun, managerStep, getRules, lookupRules, hfetch, emptyManagerState,
      newCrawlRules_test]

/-- Witness for C2: a candidate whose URL string is already visited
leaves the state untouched. -/
theorem manager_dispatches_once_witness :
    managerStep (fun _ => .transportErr)
      { visited := [""], index := [], getCalls := [], dispatched := [] } zeroWebsite =
      { visited := [""], index := [], getCalls := [], dispatched := [] } :=
  manager_dispatches_once.1 (fun _ => .transportErr)
    { visited := [""], index := [], getCalls := [], dispatched := [] }
    zeroWebsite (by decide)

/-- C9 fails as stated: admitting a URL whose hostname is empty does
reach `RulesIndex.Get` — the manager of the current revision has no
empty-hostname guard — although no fetch of the URL itself is
dispatched (the robots fetch for hostname "" fails at transport
level). -/
theorem manager_get_called_for_empty_host :
    (managerRun (fun _ => .transportErr) emptyManagerState
        [{ referrer := { scheme := "", host := "", path := "" },
           url := { scheme := "http", host := "", path := "/x" } }]).getCalls = [""] ∧
    (managerRun (fun _ => .transportErr) emptyManagerState
        [{ referrer := { scheme := "", host := "", path := "" },
           url := { scheme := "http", host := "", path := "/x" } }]).getCalls ≠ [] ∧
    (managerRun (fun _ => .transportErr) emptyManagerState
        [{ referrer := { scheme := "", host := "", path := "" },
           url := { scheme := "http", host := "", path := "/x" } }]).dispatched = [] := by
  decide

/-- C9 amended: an unvisited candidate with an empty hostname is
dropped without a fetch dispatch, but only after a `RulesIndex.Get`
call for hostname "" whose robots fetch fails at transport level; the
index is left unchanged. -/
theorem empty_host_dropped_after_get (oracle : String → FetchResult)
    (st : ManagerState) (w : Website)
    (hh : hostnameOf w.url.host = "")
    (hv : urlString w.url ∉ st.visited)
    (hl : lookupRules st.index "" = none)
    (ho : oracle "" = .transportErr) :
    managerStep oracle st w =
      { st with visited := urlString w.url :: st.visited,
                getCalls := st.getCalls ++ [""] } := by
  unfold managerStep
  rw [if_neg hv]
  dsimp only
  rw [hh]
  simp [getRules, hl, ho, fetchCrawlRules]

/-- Witness for the amended C9: the concrete empty-host candidate from
the counterexample. -/
theorem empty_host_dropped_after_get_witness :
    managerStep (fun _ => .transportErr) emptyManagerState
      { referrer := { scheme := "", host := "", path := "" },
        url := { scheme := "http", host := "", path := "/x" } } =
      { visited := [urlString { scheme := "http", host := "", path := "/x" }],
        index := [], getCalls := [""], dispatched := [] } :=
  empty_host_dropped_after_get (fun _ => .transportErr) emptyManagerState
    { referrer := { scheme := "", host := "", path := "" },
      url := { scheme := "http", host := "", path := "/x" } }
    rfl (by decide) rfl rfl

end Grawler
